import Mathlib

/-!
Verification of the `kho/stream` streaming token-consumption engine.

The Go source defines an `Iteratee` interface (one state of a token-driven
state machine, with `Final() error` and `Next(token) (Iteratee, bool, error)`),
a family of combinators (`Match`, `EOF`, `Skip`, `SkipAny`, `Seq`, `Then`,
`Star`), and a driver (`ScanEnumerator.Step` in `enum.go`, looped by `Run`).

The repository contains several iterations of the same core.  This embedding
covers the combinator file (`matchI`, `eofI`, `skipI`, `skipAnyI`, `seqI`,
`thenI`, `starI` — the most complete iteration) together with the two variants
of `Match` and of the end-of-input iteratee found in `stream.go` (`Match` with
`ErrMistmatch`/`ErrUnexpectedEnd`, `eofI` with `ErrTrailingInput`), embedded
here as `MatchG` and `eofG`.  The driver is `enum.go`'s `ScanEnumerator.Step`
(the variant that wraps transition errors with `WrapTokenError`) and `Run`.

User-defined iteratees (the interface is open in Go) are modelled by the
`custom` constructor: a state drawn from an arbitrary type `σ` whose `Final`
and `Next` methods are given by a `CustomBehavior σ`.  All claims quantifying
over "every consumer" quantify over `σ` and the behavior.
-/

namespace KhoStream

/-- A token, as delivered by the scanner.  Go compares tokens by string
content (`string(token) == string(it)`), so we model a token as its string. -/
abbrev Token := String

/-- The error taxonomy of the package.  Each constructor embeds one concrete
Go error type; `external` stands for errors of types outside the package
(errors returned by the underlying source or by user-defined iteratees). -/
inductive Err : Type where
  /-- `ErrExpect` — "expect %s" (combinator file). -/
  | expect (s : String)
  /-- `ErrExpectQ` — "expect %q" (combinator file). -/
  | expectQ (s : String)
  /-- `ErrTrailingInput` — "trailing input token: %q" (`stream.go`). -/
  | trailingInput (s : String)
  /-- `ErrMistmatch` — "expect %q: got %q" (`stream.go`). -/
  | mistmatch (expect got : String)
  /-- `ErrUnexpectedEnd` — "unexpected end of input" (`stream.go`). -/
  | unexpectedEnd
  /-- `TokenErr` — an error wrapped with the offending token (`enum.go`). -/
  | tokenErr (token : String) (e : Err)
  /-- An error value from outside the package (source failure, custom iteratee). -/
  | external (n : Nat)
deriving DecidableEq, Repr

/-- The closed sum of iteratee states: one constructor per concrete Go type
implementing the `Iteratee` interface, plus `custom` for user-defined states
of type `σ`. -/
inductive Iteratee (σ : Type) : Type where
  /-- `eofI` of the combinator file: `Next` returns `ErrExpect("<eof>")`. -/
  | eofI
  /-- `eofI` of `stream.go`: `Next` returns `ErrTrailingInput(token)`. -/
  | eofG
  /-- `skipI`: skips exactly one token. -/
  | skipI
  /-- `matchI` of the combinator file: mismatch and `Final` both return `ErrExpectQ(it)`. -/
  | matchI (s : String)
  /-- `Match` of `stream.go`: mismatch returns `ErrMistmatch`, `Final` returns `ErrUnexpectedEnd`. -/
  | MatchG (s : String)
  /-- `skipAnyI`: skips zero or more repetitions of `s`. -/
  | skipAnyI (s : String)
  /-- `seqI`: a slice of iteratees, run to final in order. -/
  | seqI (l : List (Iteratee σ))
  /-- `thenI`: run `a` to final, then `b` to final. -/
  | thenI (a b : Iteratee σ)
  /-- `starI`: repeat `a` until it can not further proceed. -/
  | starI (a : Iteratee σ)
  /-- A user-defined iteratee state. -/
  | custom (s : σ)

/-- The triple returned by Go's `Next(token) (Iteratee, bool, error)`:
the next state (`nil` = completed), the consumed flag, and the error. -/
structure NextRes (σ : Type) : Type where
  next : Option (Iteratee σ)
  read : Bool
  err : Option Err

/-- The `Final` and `Next` methods of the user-defined iteratee states. -/
structure CustomBehavior (σ : Type) : Type where
  final : σ → Option Err
  next : σ → Token → NextRes σ

/-- A trivial behavior for the unit state (used to instantiate theorems on
inputs that involve no user-defined iteratee). -/
def unitB : CustomBehavior Unit where
  final := fun _ => none
  next := fun _ _ => ⟨none, true, none⟩

mutual

/-- `Final()` of each iteratee, by cases on the concrete type.  `seqI.Final`
iterates its elements in order and returns the first error (`seqFinal`). -/
def iterFinal {σ : Type} (B : CustomBehavior σ) : Iteratee σ → Option Err
  | .eofI => none
  | .eofG => none
  | .skipI => some (.expect "a token")
  | .matchI s => some (.expectQ s)
  | .MatchG _ => some .unexpectedEnd
  | .skipAnyI _ => none
  | .seqI l => seqFinal B l
  | .thenI a b =>
    match iterFinal B a with
    | some e => some e
    | none => iterFinal B b
  | .starI _ => none
  | .custom s => B.final s

/-- The loop body of `seqI.Final`: first error of the elements' `Final`s. -/
def seqFinal {σ : Type} (B : CustomBehavior σ) : List (Iteratee σ) → Option Err
  | [] => none
  | i :: rest =>
    match iterFinal B i with
    | some e => some e
    | none => seqFinal B rest

end

/-- `Next(token)` of each iteratee, by cases on the concrete type.

* `eofI`: `return nil, false, ErrExpect("<eof>")`.
* `eofG` (`stream.go`): `return nil, false, ErrTrailingInput(token)`.
* `skipI`: `return nil, true, nil`.
* `matchI s`: equal ⇒ `(nil, true, nil)`; else `(nil, false, ErrExpectQ(it))`.
* `MatchG s` (`stream.go`): equal ⇒ `(nil, true, nil)`; else `(nil, false, ErrMistmatch{it, token})`.
* `skipAnyI s`: equal ⇒ `(it, true, nil)`; else `(nil, false, nil)`.
* `seqI []`: `return nil, false, nil`.
* `seqI (i :: rest)`: delegate to `i`; error ⇒ `(nil, false, err)`; continuation
  `next` ⇒ `(thenI{next, it[1:]}, read, nil)`; completion ⇒ `(it[1:], read, nil)`.
* `thenI a b`: delegate to `a`; error ⇒ `(nil, false, err)`; continuation
  `next` ⇒ `(thenI{next, b}, read, nil)`; completion ⇒ `(b, read, nil)`.
* `starI a`: delegate to `a`; error ⇒ `(nil, false, nil)`; continuation
  `next` ⇒ `(thenI{next, it}, read, nil)`; completion ⇒ `(it, read, nil)`.
* `custom s`: the user-supplied method. -/
def iterNext {σ : Type} (B : CustomBehavior σ) : Iteratee σ → Token → NextRes σ
  | .eofI, _ => ⟨none, false, some (.expect "<eof>")⟩
  | .eofG, token => ⟨none, false, some (.trailingInput token)⟩
  | .skipI, _ => ⟨none, true, none⟩
  | .matchI s, token =>
    if token = s then ⟨none, true, none⟩ else ⟨none, false, some (.expectQ s)⟩
  | .MatchG s, token =>
    if token = s then ⟨none, true, none⟩ else ⟨none, false, some (.mistmatch s token)⟩
  | .skipAnyI s, token =>
    if token = s then ⟨some (.skipAnyI s), true, none⟩ else ⟨none, false, none⟩
  | .seqI [], _ => ⟨none, false, none⟩
  | .seqI (i :: rest), token =>
    match iterNext B i token with
    | ⟨_, _, some e⟩ => ⟨none, false, some e⟩
    | ⟨some n, rd, none⟩ => ⟨some (.thenI n (.seqI rest)), rd, none⟩
    | ⟨none, rd, none⟩ => ⟨some (.seqI rest), rd, none⟩
  | .thenI a b, token =>
    match iterNext B a token with
    | ⟨_, _, some e⟩ => ⟨none, false, some e⟩
    | ⟨some n, rd, none⟩ => ⟨some (.thenI n b), rd, none⟩
    | ⟨none, rd, none⟩ => ⟨some b, rd, none⟩
  | .starI a, token =>
    match iterNext B a token with
    | ⟨_, _, some _⟩ => ⟨none, false, none⟩
    | ⟨some n, rd, none⟩ => ⟨some (.thenI n (.starI a)), rd, none⟩
    | ⟨none, rd, none⟩ => ⟨some (.starI a), rd, none⟩
  | .custom s, token => B.next s token

/-- `WrapTokenError` of `enum.go`: nil stays nil, anything else is wrapped
into `TokenErr{string(token), err}`. -/
def WrapTokenError (token : Token) : Option Err → Option Err
  | none => none
  | some e => some (.tokenErr token e)

/-- The state of `ScanEnumerator`: the backing scanner is modelled by the
list of tokens not yet scanned (`rest`), the token most recently scanned
(`cur`, Go's `e.in.Bytes()`), and the error the scanner reports at exhaustion
(`srcErr`, Go's `e.in.Err()`; `none` = clean end of input).  `scan` is the
"must call Scan before getting next token" flag of the Go struct. -/
structure ScanEnumerator : Type where
  rest : List Token
  cur : Token
  scan : Bool
  srcErr : Option Err
deriving DecidableEq, Repr

/-- `ScanEnumerator.Step` of `enum.go`:

* if `scan` is set and the scanner is exhausted, return the source error,
  or — when that is nil — the result of `Final()` on the current iteratee;
* otherwise deliver the (new or replayed) token to `Next`, store the consumed
  flag into `scan`, and return the next iteratee together with the
  `WrapTokenError`-wrapped transition error. -/
def Step {σ : Type} (B : CustomBehavior σ) (e : ScanEnumerator) (it : Iteratee σ) :
    ScanEnumerator × Option (Iteratee σ) × Option Err :=
  match e.scan, e.rest with
  | true, [] =>
    (e, none,
      match e.srcErr with
      | some err => some err
      | none => iterFinal B it)
  | true, t :: ts =>
    let r := iterNext B it t
    (⟨ts, t, r.read, e.srcErr⟩, r.next, WrapTokenError t r.err)
  | false, _ =>
    let r := iterNext B it e.cur
    (⟨e.rest, e.cur, r.read, e.srcErr⟩, r.next, WrapTokenError e.cur r.err)

/-- `Run` of the package, with an explicit fuel so that it is a total Lean
function: step until an error or a nil iteratee.  `none` means the loop did
not terminate within `fuel` steps; `some (e, err)` means the loop returned
with final enumerator state `e` and result `err` (`none` = success). -/
def RunFuel {σ : Type} (B : CustomBehavior σ) :
    Nat → ScanEnumerator → Iteratee σ → Option (ScanEnumerator × Option Err)
  | 0, _, _ => none
  | fuel + 1, e, it =>
    match Step B e it with
    | (e1, _, some er) => some (e1, some er)
    | (e1, none, none) => some (e1, none)
    | (e1, some it1, none) => RunFuel B fuel e1 it1

/-- A fresh enumerator over the given token list, reporting `se` when the
tokens run out (`NewScanEnumerator`: `scan` starts true, no token scanned). -/
def initE (toks : List Token) (se : Option Err) : ScanEnumerator :=
  ⟨toks, "", true, se⟩

/-- A step on `e` delivers a token (rather than hitting end of input). -/
def tokAvail (e : ScanEnumerator) : Prop :=
  e.scan = false ∨ e.rest ≠ []

instance : DecidablePred tokAvail := fun e => by
  unfold tokAvail; infer_instance

/-- The token a token-delivering step on `e` hands to the iteratee. -/
def tok (e : ScanEnumerator) : Token :=
  match e.scan, e.rest with
  | true, t :: _ => t
  | true, [] => ""
  | false, _ => e.cur

/-- The enumerator state after a token-delivering step on `e` whose
transition returned the consumed flag `rd`. -/
def eAfter (e : ScanEnumerator) (rd : Bool) : ScanEnumerator :=
  match e.scan, e.rest with
  | true, t :: ts => ⟨ts, t, rd, e.srcErr⟩
  | true, [] => e
  | false, _ => ⟨e.rest, e.cur, rd, e.srcErr⟩

/-- The expected final enumerator state of a run of `Star(Match s)` started
with current-token register `cur0` and remaining input `toks`: tokens equal
to `s` are consumed one by one; the first other token is left unconsumed
(`scan = false`, replayable); if all tokens match, the run ends at exhaustion
with `scan = true`.  (This definition follows the specification's words —
"consumes the maximal consecutive prefix, then completes without consuming
the first non-matching token" — and is compared against the code's `RunFuel`.) -/
def starMatchFinal (s : String) (cur0 : Token) : List Token → ScanEnumerator
  | [] => ⟨[], cur0, true, none⟩
  | t :: ts => if t = s then starMatchFinal s t ts else ⟨ts, t, false, none⟩

/-- The simulation relation used for the claim that `Seq(Seq(a,b),c)` behaves
like `Seq(a,b,c)`: it pairs each reachable state of the nested composition
with the corresponding state of the flat one. -/
inductive SRel {σ : Type} : Iteratee σ → Iteratee σ → Prop where
  | refl (x : Iteratee σ) : SRel x x
  | seqseq (l r : List (Iteratee σ)) : SRel (.seqI (.seqI l :: r)) (.seqI (l ++ r))
  | thenthen (m : Iteratee σ) (l r : List (Iteratee σ)) :
      SRel (.thenI (.thenI m (.seqI l)) (.seqI r)) (.thenI m (.seqI (l ++ r)))
  | thenseq (l r : List (Iteratee σ)) :
      SRel (.thenI (.seqI l) (.seqI r)) (.seqI (l ++ r))

/-- `SRel` lifted to the optional next-iteratee of a transition. -/
def OptSRel {σ : Type} : Option (Iteratee σ) → Option (Iteratee σ) → Prop
  | none, none => True
  | some x, some y => SRel x y
  | _, _ => False

/-! Basic lemmas about the driver step. -/

/-- When the driver must advance and the scanner is exhausted, `Step` keeps
the enumerator state, returns no next iteratee, and reports the source error
or — when that is nil — the current iteratee's `Final`. -/
theorem step_exhaust {σ : Type} (B : CustomBehavior σ) (e : ScanEnumerator) (it : Iteratee σ)
    (h1 : e.scan = true) (h2 : e.rest = []) :
    Step B e it = (e, none,
      match e.srcErr with
      | some s => some s
      | none => iterFinal B it) := by
  obtain ⟨rest, cur, scan, se⟩ := e
  dsimp only at h1 h2
  subst h1; subst h2
  rfl

/-- A token-delivering `Step` transitions the current iteratee on `tok e`,
stores the consumed flag, and wraps the transition error with the token. -/
theorem step_tok {σ : Type} (B : CustomBehavior σ) (e : ScanEnumerator) (it : Iteratee σ)
    (h : tokAvail e) :
    Step B e it = (eAfter e (iterNext B it (tok e)).read, (iterNext B it (tok e)).next,
      WrapTokenError (tok e) (iterNext B it (tok e)).err) := by
  obtain ⟨rest, cur, scan, se⟩ := e
  cases scan with
  | false => rfl
  | true =>
    cases rest with
    | nil => rcases h with h | h <;> simp at h
    | cons t ts => rfl

theorem tokAvail_eAfter_false {e : ScanEnumerator} (h : tokAvail e) :
    tokAvail (eAfter e false) := by
  obtain ⟨rest, cur, scan, se⟩ := e
  cases scan with
  | false => exact Or.inl rfl
  | true =>
    cases rest with
    | nil => rcases h with h | h <;> simp at h
    | cons t ts => exact Or.inl rfl

theorem tok_eAfter_false {e : ScanEnumerator} (h : tokAvail e) :
    tok (eAfter e false) = tok e := by
  obtain ⟨rest, cur, scan, se⟩ := e
  cases scan with
  | false => rfl
  | true =>
    cases rest with
    | nil => rcases h with h | h <;> simp at h
    | cons t ts => rfl

theorem eAfter_eAfter_false {e : ScanEnumerator} (h : tokAvail e) (rd : Bool) :
    eAfter (eAfter e false) rd = eAfter e rd := by
  obtain ⟨rest, cur, scan, se⟩ := e
  cases scan with
  | false => rfl
  | true =>
    cases rest with
    | nil => rcases h with h | h <;> simp at h
    | cons t ts => rfl

theorem eAfter_scan {e : ScanEnumerator} (h : tokAvail e) (rd : Bool) :
    (eAfter e rd).scan = rd := by
  obtain ⟨rest, cur, scan, se⟩ := e
  cases scan with
  | false => rfl
  | true =>
    cases rest with
    | nil => rcases h with h | h <;> simp at h
    | cons t ts => rfl

/-- One-step unfolding of `RunFuel` at a token-delivering state, phrased by
cases on the transition result. -/
theorem runFuel_succ_tok {σ : Type} (B : CustomBehavior σ) {e : ScanEnumerator}
    (h : tokAvail e) (n : Nat) (it : Iteratee σ) :
    RunFuel B (n + 1) e it =
      match iterNext B it (tok e) with
      | ⟨_, rd, some er⟩ => some (eAfter e rd, some (.tokenErr (tok e) er))
      | ⟨none, rd, none⟩ => some (eAfter e rd, none)
      | ⟨some it1, rd, none⟩ => RunFuel B n (eAfter e rd) it1 := by
  simp only [RunFuel]
  rw [step_tok B e it h]
  rcases hr : iterNext B it (tok e) with ⟨o, rd, er⟩
  cases er with
  | none => cases o <;> rfl
  | some er0 => cases o <;> rfl

/-- One-step unfolding of `RunFuel` at an exhausted source: the run ends,
with the source error or the current iteratee's `Final` as result. -/
theorem runFuel_succ_exhaust {σ : Type} (B : CustomBehavior σ) {e : ScanEnumerator}
    (h1 : e.scan = true) (h2 : e.rest = []) (n : Nat) (it : Iteratee σ) :
    RunFuel B (n + 1) e it = some (e,
      match e.srcErr with
      | some s => some s
      | none => iterFinal B it) := by
  simp only [RunFuel]
  rw [step_exhaust B e it h1 h2]
  rcases e.srcErr with _ | s
  · rcases iterFinal B it with _ | er <;> rfl
  · rfl

/-- Replaying a token: after a non-consuming transition the rewound state
(`eAfter e false`) runs exactly like `e` itself. -/
theorem runFuel_eAfter_false {σ : Type} (B : CustomBehavior σ) {e : ScanEnumerator}
    (h : tokAvail e) (n : Nat) (it : Iteratee σ) :
    RunFuel B (n + 1) (eAfter e false) it = RunFuel B (n + 1) e it := by
  rw [runFuel_succ_tok B (tokAvail_eAfter_false h) n it,
    runFuel_succ_tok B h n it, tok_eAfter_false h]
  rcases iterNext B it (tok e) with ⟨o, rd, er⟩
  cases er <;> cases o <;> simp only [eAfter_eAfter_false h]

/-- `RunFuel` is monotone in the fuel: a run that returns keeps returning
the same answer with more fuel. -/
theorem runFuel_mono {σ : Type} (B : CustomBehavior σ) :
    ∀ (n : Nat) (e : ScanEnumerator) (it : Iteratee σ) (res : ScanEnumerator × Option Err),
      RunFuel B n e it = some res → RunFuel B (n + 1) e it = some res := by
  intro n
  induction n with
  | zero => intro e it res h; simp [RunFuel] at h
  | succ n ih =>
    intro e it res h
    rw [RunFuel] at h ⊢
    rcases hs : Step B e it with ⟨e1, o, er⟩
    rw [hs] at h
    cases er with
    | some er0 => cases o <;> exact h
    | none =>
      cases o with
      | none => exact h
      | some it1 => exact ih e1 it1 res h

/-- A state where no token can be delivered is an exhausted must-advance state. -/
theorem not_tokAvail_iff {e : ScanEnumerator} (h : ¬ tokAvail e) :
    e.scan = true ∧ e.rest = [] := by
  cases hb : e.scan with
  | false => exact absurd (Or.inl hb) h
  | true =>
    cases hr : e.rest with
    | nil => exact ⟨rfl, rfl⟩
    | cons t ts => exact absurd (Or.inr (by rw [hr]; simp)) h

/-! The simulation argument for `Seq(Seq(a,b),c)` versus `Seq(a,b,c)`. -/

/-- `seqI.Final` over a concatenation is the error-propagating composition of
the two halves. -/
theorem seqFinal_append {σ : Type} (B : CustomBehavior σ) (l r : List (Iteratee σ)) :
    seqFinal B (l ++ r) =
      match seqFinal B l with
      | some e => some e
      | none => seqFinal B r := by
  induction l with
  | nil => rfl
  | cons i l ih =>
    simp only [List.cons_append, seqFinal]
    cases hif : iterFinal B i with
    | some e => rfl
    | none => exact ih

/-- Related states have the same `Final` result. -/
theorem srel_final {σ : Type} (B : CustomBehavior σ) {x y : Iteratee σ} (h : SRel x y) :
    iterFinal B x = iterFinal B y := by
  cases h with
  | refl x => rfl
  | seqseq l r =>
    simp only [iterFinal, seqFinal, seqFinal_append]
  | thenthen m l r =>
    simp only [iterFinal, seqFinal_append]
    cases iterFinal B m with
    | some e => rfl
    | none => cases seqFinal B l <;> rfl
  | thenseq l r =>
    simp only [iterFinal, seqFinal_append]

/-- A nonempty `seqI` transitions exactly like `thenI` of its head and tail. -/
theorem seq_cons_then {σ : Type} (B : CustomBehavior σ) (h0 : Iteratee σ)
    (rest : List (Iteratee σ)) (t : Token) :
    iterNext B (.seqI (h0 :: rest)) t = iterNext B (.thenI h0 (.seqI rest)) t := by
  rcases hr : iterNext B h0 t with ⟨o, rd, er⟩
  cases er <;> cases o <;> simp [iterNext, hr]

theorem optSRel_refl {σ : Type} (o : Option (Iteratee σ)) : OptSRel o o := by
  cases o with
  | none => trivial
  | some x => exact SRel.refl x

/-- The non-stuttering step correspondence for the cons case of the
simulation: same consumed flag, same error, related next states. -/
theorem srel_pair_cons {σ : Type} (B : CustomBehavior σ) (a : Iteratee σ)
    (l r : List (Iteratee σ)) (t : Token) :
    (iterNext B (.thenI (.seqI (a :: l)) (.seqI r)) t).read
        = (iterNext B (.seqI (a :: (l ++ r))) t).read ∧
      (iterNext B (.thenI (.seqI (a :: l)) (.seqI r)) t).err
        = (iterNext B (.seqI (a :: (l ++ r))) t).err ∧
      OptSRel (iterNext B (.thenI (.seqI (a :: l)) (.seqI r)) t).next
        (iterNext B (.seqI (a :: (l ++ r))) t).next := by
  rcases hr : iterNext B a t with ⟨o, rd, er⟩
  cases er with
  | some e0 => simp [iterNext, hr, OptSRel]
  | none =>
    cases o with
    | some n =>
      refine ⟨?_, ?_, ?_⟩ <;> simp [iterNext, hr, OptSRel]
      exact SRel.thenthen n l r
    | none =>
      refine ⟨?_, ?_, ?_⟩ <;> simp [iterNext, hr, OptSRel]
      exact SRel.thenseq l r

/-- Each related pair either takes one silent left step directly to the right
state (token unconsumed, no error) or steps in lockstep to related states. -/
theorem srel_step {σ : Type} (B : CustomBehavior σ) {x y : Iteratee σ}
    (h : SRel x y) (t : Token) :
    iterNext B x t = ⟨some y, false, none⟩ ∨
      ((iterNext B x t).read = (iterNext B y t).read ∧
        (iterNext B x t).err = (iterNext B y t).err ∧
        OptSRel (iterNext B x t).next (iterNext B y t).next) := by
  cases h with
  | refl x => exact Or.inr ⟨rfl, rfl, optSRel_refl _⟩
  | seqseq l r =>
    cases l with
    | nil => left; simp [iterNext]
    | cons a l =>
      right
      rw [seq_cons_then]
      exact srel_pair_cons B a l r t
  | thenthen m l r =>
    right
    rcases hr : iterNext B m t with ⟨o, rd, er⟩
    cases er with
    | some e0 => simp [iterNext, hr, OptSRel]
    | none =>
      cases o with
      | some n =>
        refine ⟨?_, ?_, ?_⟩ <;> simp [iterNext, hr, OptSRel]
        exact SRel.thenthen n l r
      | none =>
        refine ⟨?_, ?_, ?_⟩ <;> simp [iterNext, hr, OptSRel]
        exact SRel.thenseq l r
  | thenseq l r =>
    cases l with
    | nil => left; simp [iterNext]
    | cons a l =>
      right
      exact srel_pair_cons B a l r t

/-- Right-to-left transfer of run results: with one extra unit of fuel the
nested state reproduces any result of the flat state. -/
theorem srel_run_left {σ : Type} (B : CustomBehavior σ) :
    ∀ (n : Nat) (e : ScanEnumerator) (x y : Iteratee σ) (res : ScanEnumerator × Option Err),
      SRel x y → RunFuel B n e y = some res → RunFuel B (n + 1) e x = some res := by
  intro n
  induction n with
  | zero => intro e x y res _ h; simp [RunFuel] at h
  | succ n ih =>
    intro e x y res hrel hrun
    by_cases ha : tokAvail e
    case neg =>
      obtain ⟨h1, h2⟩ := not_tokAvail_iff ha
      rw [runFuel_succ_exhaust B h1 h2] at hrun
      rw [runFuel_succ_exhaust B h1 h2, srel_final B hrel]
      exact hrun
    case pos =>
      rcases srel_step B hrel (tok e) with hst | ⟨hrd, herr, hnext⟩
      · rw [runFuel_succ_tok B ha, hst]
        show RunFuel B (n + 1) (eAfter e false) y = some res
        exact (runFuel_eAfter_false B ha n y).trans hrun
      · rw [runFuel_succ_tok B ha] at hrun
        rw [runFuel_succ_tok B ha]
        rcases hrx : iterNext B x (tok e) with ⟨ox, rdx, erx⟩
        rw [hrx] at hrd herr hnext
        rcases hry : iterNext B y (tok e) with ⟨oy, rdy, ery⟩
        rw [hry] at hrd herr hnext hrun
        dsimp only at hrd herr hnext
        subst hrd; subst herr
        cases erx with
        | some er0 => cases ox <;> cases oy <;> exact hrun
        | none =>
          cases oy with
          | none =>
            cases ox with
            | none => exact hrun
            | some x1 => exact hnext.elim
          | some y1 =>
            cases ox with
            | none => exact hnext.elim
            | some x1 =>
              show RunFuel B (n + 1) (eAfter e rdx) x1 = some res
              exact ih (eAfter e rdx) x1 y1 res hnext hrun

/-- Left-to-right transfer of run results: any result of the nested state is
reproduced by the flat state within the same fuel. -/
theorem srel_run_right {σ : Type} (B : CustomBehavior σ) :
    ∀ (n : Nat) (e : ScanEnumerator) (x y : Iteratee σ) (res : ScanEnumerator × Option Err),
      SRel x y → RunFuel B n e x = some res → RunFuel B n e y = some res := by
  intro n
  induction n with
  | zero => intro e x y res _ h; simp [RunFuel] at h
  | succ n ih =>
    intro e x y res hrel hrun
    by_cases ha : tokAvail e
    case neg =>
      obtain ⟨h1, h2⟩ := not_tokAvail_iff ha
      rw [runFuel_succ_exhaust B h1 h2] at hrun
      rw [runFuel_succ_exhaust B h1 h2, ← srel_final B hrel]
      exact hrun
    case pos =>
      rcases srel_step B hrel (tok e) with hst | ⟨hrd, herr, hnext⟩
      · rw [runFuel_succ_tok B ha, hst] at hrun
        have hrun1 : RunFuel B n (eAfter e false) y = some res := hrun
        cases n with
        | zero => simp [RunFuel] at hrun1
        | succ m =>
          have h2 : RunFuel B (m + 1) e y = some res :=
            (runFuel_eAfter_false B ha m y).symm.trans hrun1
          exact runFuel_mono B (m + 1) e y res h2
      · rw [runFuel_succ_tok B ha] at hrun
        rw [runFuel_succ_tok B ha]
        rcases hrx : iterNext B x (tok e) with ⟨ox, rdx, erx⟩
        rw [hrx] at hrd herr hnext hrun
        rcases hry : iterNext B y (tok e) with ⟨oy, rdy, ery⟩
        rw [hry] at hrd herr hnext
        dsimp only at hrd herr hnext
        subst hrd; subst herr
        cases erx with
        | some er0 => cases ox <;> cases oy <;> exact hrun
        | none =>
          cases oy with
          | none =>
            cases ox with
            | none => exact hrun
            | some x1 => exact hnext.elim
          | some y1 =>
            cases ox with
            | none => exact hnext.elim
            | some x1 =>
              show RunFuel B n (eAfter e rdx) y1 = some res
              exact ih (eAfter e rdx) x1 y1 res hnext hrun

/-! The claims. -/

/-- Claim C1, counterexample.  The claim says running the driver on
`Star(inner)` never returns an error, even when inner errors partway through
a repetition that has already consumed tokens.  With
`inner = Seq(Match "a", Match "b")` and input `["a", "c"]`, the first step
consumes `"a"` and moves to `Then(Seq[Match "b"], Star(inner))`; on `"c"`,
`Match "b"` fails and `Then` propagates the error past the `Star`, so the
run returns a (token-wrapped) error instead of completing cleanly. -/
theorem c1_counterexample :
    RunFuel unitB 5 (initE ["a", "c"] none) (.starI (.seqI [.matchI "a", .matchI "b"]))
        = some (⟨[], "c", false, none⟩, some (.tokenErr "c" (.expectQ "b"))) ∧
      (some (Err.tokenErr "c" (Err.expectQ "b")) : Option Err) ≠ none :=
  ⟨rfl, by decide⟩

/-- Claim C1, amended: `Star(inner)`'s own transition never returns an error
(it swallows the inner error and completes without consuming), and for an
inner consumer that can only fail before consuming anything within a
repetition — such as `Match s` — the driver on `Star(inner)` indeed never
errors: it consumes the maximal consecutive prefix of tokens equal to `s`
and completes without consuming the first non-matching token
(`starMatchFinal`).  But once a repetition has consumed tokens the state is
`Then(continuation, Star)`, and an error of the continuation propagates, so
the run as a whole can fail (see the counterexample). -/
theorem c1_star_never_fails_amended {σ : Type} (B : CustomBehavior σ) :
    (∀ (a : Iteratee σ) (t : Token), (iterNext B (.starI a) t).err = none) ∧
      (∀ (s : String) (cur0 : Token) (toks : List Token),
        RunFuel B (toks.length + 1) ⟨toks, cur0, true, none⟩ (.starI (.matchI s))
          = some (starMatchFinal s cur0 toks, none)) := by
  constructor
  · intro a t
    rcases hr : iterNext B a t with ⟨o, rd, er⟩
    cases er <;> cases o <;> simp [iterNext, hr]
  · intro s cur0 toks
    induction toks generalizing cur0 with
    | nil =>
      rw [runFuel_succ_exhaust B rfl rfl]
      rfl
    | cons t ts ih =>
      have ha : tokAvail (⟨t :: ts, cur0, true, none⟩ : ScanEnumerator) :=
        Or.inr (by simp)
      rw [runFuel_succ_tok B ha]
      dsimp only [tok, eAfter]
      by_cases hts : t = s
      · have hx : iterNext B (.starI (.matchI s) : Iteratee σ) t
            = ⟨some (.starI (.matchI s)), true, none⟩ := by
          simp [iterNext, hts]
        rw [hx]
        show RunFuel B (ts.length + 1) ⟨ts, t, true, none⟩ (.starI (.matchI s))
          = some (starMatchFinal s cur0 (t :: ts), none)
        rw [ih t, starMatchFinal, if_pos hts]
      · have hx : iterNext B (.starI (.matchI s) : Iteratee σ) t = ⟨none, false, none⟩ := by
          simp [iterNext, hts]
        rw [hx]
        show some ((⟨ts, t, false, none⟩ : ScanEnumerator), (none : Option Err))
          = some (starMatchFinal s cur0 (t :: ts), none)
        rw [starMatchFinal, if_neg hts]

/-- Claim C2: when the inner consumer's transition errors, `Star`'s
transition returns no error, no next consumer, and `consumed = false`, so the
rejected token is replayed to whatever follows the `Star`. -/
theorem c2_star_swallows_inner_error {σ : Type} (B : CustomBehavior σ) (a : Iteratee σ)
    (t : Token) (h : (iterNext B a t).err ≠ none) :
    iterNext B (.starI a) t = ⟨none, false, none⟩ := by
  rcases hr : iterNext B a t with ⟨o, rd, er⟩
  rw [hr] at h
  cases er with
  | none => simp at h
  | some e0 => cases o <;> simp [iterNext, hr]

/-- Witness for C2: `Match "a"` errors on `"b"`, and `Star(Match "a")`
swallows that error. -/
theorem c2_star_swallows_inner_error_witness :
    (iterNext unitB (.matchI "a") "b").err ≠ none ∧
      iterNext unitB (.starI (.matchI "a")) "b" = ⟨none, false, none⟩ :=
  ⟨by decide, c2_star_swallows_inner_error unitB (.matchI "a") "b" (by decide)⟩

/-- Claim C3: after a token-delivering driver step, the must-advance flag
(`scan`) equals the `consumed` flag the transition returned; and when that
flag is `false` the following step delivers the very same token (the state
does not advance: `scan = false` and the current token register still holds
the delivered token). -/
theorem c3_driver_replays_unconsumed {σ : Type} (B : CustomBehavior σ) (e : ScanEnumerator)
    (it : Iteratee σ) (h : tokAvail e) :
    (Step B e it).1.scan = (iterNext B it (tok e)).read ∧
      ((iterNext B it (tok e)).read = false →
        (Step B e it).1.scan = false ∧ tok (Step B e it).1 = tok e ∧
          tokAvail (Step B e it).1) := by
  rw [step_tok B e it h]
  refine ⟨eAfter_scan h _, fun hf => ?_⟩
  rw [hf]
  exact ⟨eAfter_scan h false, tok_eAfter_false h, tokAvail_eAfter_false h⟩

/-- Witness for C3 at a concrete non-consuming transition (`EOF` on `"x"`). -/
theorem c3_driver_replays_unconsumed_witness :
    tokAvail ⟨[], "x", false, none⟩ ∧
      (Step unitB ⟨[], "x", false, none⟩ .eofG).1.scan = false ∧
      tok (Step unitB ⟨[], "x", false, none⟩ .eofG).1 = "x" := by
  have h := c3_driver_replays_unconsumed unitB ⟨[], "x", false, none⟩ .eofG (Or.inl rfl)
  have h2 := h.2 (by decide)
  exact ⟨Or.inl rfl, h2.1, h2.2.1⟩

/-- Claim C4: at a must-advance step on an exhausted source the run ends;
with no source error the result is exactly `Final()` of the current
consumer, and with a source error that error is returned unchanged (not
token-wrapped, `Final` not consulted — the result does not depend on `it`). -/
theorem c4_exhaustion_finalize_or_source_error {σ : Type} (B : CustomBehavior σ)
    (e : ScanEnumerator) (it : Iteratee σ) (h1 : e.scan = true) (h2 : e.rest = []) :
    (e.srcErr = none →
        Step B e it = (e, none, iterFinal B it) ∧
        ∀ n, RunFuel B (n + 1) e it = some (e, iterFinal B it)) ∧
      (∀ s, e.srcErr = some s →
        Step B e it = (e, none, some s) ∧
        ∀ n, RunFuel B (n + 1) e it = some (e, some s)) := by
  constructor
  · intro hs
    constructor
    · rw [step_exhaust B e it h1 h2, hs]
    · intro n; rw [runFuel_succ_exhaust B h1 h2, hs]
  · intro s hs
    constructor
    · rw [step_exhaust B e it h1 h2, hs]
    · intro n; rw [runFuel_succ_exhaust B h1 h2, hs]

/-- Witness for C4: a clean exhausted run ends with `Final`'s result
(success for `EOF`), and a failing source surfaces its error unchanged. -/
theorem c4_exhaustion_witness :
    RunFuel unitB 1 ⟨[], "", true, none⟩ (.eofG : Iteratee Unit)
        = some (⟨[], "", true, none⟩, none) ∧
      RunFuel unitB 1 ⟨[], "", true, some (.external 3)⟩ (.matchI "a" : Iteratee Unit)
        = some (⟨[], "", true, some (.external 3)⟩, some (.external 3)) := by
  constructor
  · exact ((c4_exhaustion_finalize_or_source_error unitB ⟨[], "", true, none⟩
      .eofG rfl rfl).1 rfl).2 0
  · exact (((c4_exhaustion_finalize_or_source_error unitB ⟨[], "", true, some (.external 3)⟩
      (.matchI "a") rfl rfl).2 (.external 3)) rfl).2 0

/-- Claim C5, counterexample.  The claim says `Match(L)`'s mismatch error
carries both the expected literal and the actual token, and that its
finalize names `L`.  In the combinator file, `matchI "a"` on `"b"` returns
`ErrExpectQ "a"` — not a literal-mismatch error carrying `"b"`; in
`stream.go`, `Match "a"`'s `Final` returns the constant
`ErrUnexpectedEnd`, which names no literal at all. -/
theorem c5_counterexample :
    iterNext unitB (.matchI "a") "b" = ⟨none, false, some (.expectQ "a")⟩ ∧
      Err.expectQ "a" ≠ Err.mistmatch "a" "b" ∧
      iterFinal unitB (.MatchG "a") = some Err.unexpectedEnd ∧
      Err.unexpectedEnd ≠ Err.expect "a" ∧ Err.unexpectedEnd ≠ Err.expectQ "a" :=
  ⟨rfl, by decide, rfl, by decide, by decide⟩

/-- Claim C5, amended: both `Match` variants complete with `consumed = true`
and no error exactly on the matching token.  On a mismatch, the combinator
file's `matchI` returns `ErrExpectQ(L)` — naming only the expected literal
(the actual token is attached only by the driver's `WrapTokenError`) — while
`stream.go`'s `Match` returns `ErrMistmatch{L, token}` carrying both.  At
end of input, `matchI`'s finalize returns `ErrExpectQ(L)` naming `L`, while
`stream.go`'s `Match` finalize returns the constant `ErrUnexpectedEnd`. -/
theorem c5_match_amended {σ : Type} (B : CustomBehavior σ) (s t : String) :
    (t = s →
        iterNext B (.matchI s : Iteratee σ) t = ⟨none, true, none⟩ ∧
        iterNext B (.MatchG s : Iteratee σ) t = ⟨none, true, none⟩) ∧
      (t ≠ s →
        iterNext B (.matchI s : Iteratee σ) t = ⟨none, false, some (.expectQ s)⟩ ∧
        iterNext B (.MatchG s : Iteratee σ) t = ⟨none, false, some (.mistmatch s t)⟩) ∧
      iterFinal B (.matchI s : Iteratee σ) = some (.expectQ s) ∧
      iterFinal B (.MatchG s : Iteratee σ) = some .unexpectedEnd := by
  refine ⟨fun h => ?_, fun h => ?_, rfl, rfl⟩
  · constructor <;> simp [iterNext, h]
  · constructor <;> simp [iterNext, h]

/-- Witness for C5's amended claim at `L = "a"`, tokens `"a"` and `"b"`. -/
theorem c5_match_amended_witness :
    iterNext unitB (.matchI "a") "a" = ⟨none, true, none⟩ ∧
      iterNext unitB (.MatchG "a") "b" = ⟨none, false, some (.mistmatch "a" "b")⟩ ∧
      iterFinal unitB (.matchI "a") = some (.expectQ "a") :=
  ⟨((c5_match_amended unitB "a" "a").1 rfl).1,
    ((c5_match_amended unitB "a" "b").2.1 (by decide)).2,
    (c5_match_amended unitB "a" "b").2.2.1⟩

/-- Claim C6: `EOF`'s finalize always succeeds, its transition on any token
`t` returns a trailing-input error carrying `t`, and therefore a driver step
delivering `t` to `EOF` fails the run with that error (token-wrapped),
identifying the first extra token.  (This is `stream.go`'s `eofI`; the
combinator-file iteration instead returns the constant `ErrExpect "<eof>"`.) -/
theorem c6_eof_trailing_input {σ : Type} (B : CustomBehavior σ) (t : Token) (cur0 : Token)
    (ts : List Token) :
    iterFinal B (.eofG : Iteratee σ) = none ∧
      iterNext B (.eofG : Iteratee σ) t = ⟨none, false, some (.trailingInput t)⟩ ∧
      RunFuel B 1 ⟨t :: ts, cur0, true, none⟩ (.eofG : Iteratee σ)
        = some (⟨ts, t, false, none⟩, some (.tokenErr t (.trailingInput t))) :=
  ⟨rfl, rfl, rfl⟩

/-- Claim C7: a token-delivering driver step surfaces exactly
`WrapTokenError` of the transition error — a non-nil error is wrapped into
`TokenErr` holding the token's content and the underlying error, and a nil
error stays nil. -/
theorem c7_error_wrapped_with_token {σ : Type} (B : CustomBehavior σ) (e : ScanEnumerator)
    (it : Iteratee σ) (h : tokAvail e) :
    (Step B e it).2.2 = WrapTokenError (tok e) (iterNext B it (tok e)).err ∧
      (∀ er, (iterNext B it (tok e)).err = some er →
        (Step B e it).2.2 = some (.tokenErr (tok e) er)) ∧
      ((iterNext B it (tok e)).err = none → (Step B e it).2.2 = none) := by
  rw [step_tok B e it h]
  refine ⟨rfl, fun er her => ?_, fun hn => ?_⟩
  · rw [her]; rfl
  · rw [hn]; rfl

/-- Witness for C7: `EOF` rejecting token `"z"` surfaces
`TokenErr{"z", ErrTrailingInput "z"}`. -/
theorem c7_error_wrapped_with_token_witness :
    tokAvail (initE ["z"] none) ∧
      (Step unitB (initE ["z"] none) .eofG).2.2
        = some (.tokenErr "z" (.trailingInput "z")) := by
  have h := c7_error_wrapped_with_token unitB (initE ["z"] none) .eofG (Or.inr (by decide))
  exact ⟨Or.inr (by decide), h.2.1 (.trailingInput "z") rfl⟩

/-- Claim C8: `Seq(Seq(a,b),c)` behaves identically to `Seq(a,b,c)` for all
consumers `a, b, c` and all driver states: every terminating run of the one
returns the same result — the same final enumerator state (hence the same
tokens consumed) and the same success/error outcome — as a terminating run
of the other, and their `Final`s agree at every point of input exhaustion. -/
theorem c8_seq_composition_assoc {σ : Type} (B : CustomBehavior σ) (a b c : Iteratee σ)
    (e : ScanEnumerator) :
    (∀ res : ScanEnumerator × Option Err,
        (∃ n, RunFuel B n e (.seqI [.seqI [a, b], c]) = some res) ↔
          (∃ n, RunFuel B n e (.seqI [a, b, c]) = some res)) ∧
      iterFinal B (.seqI [.seqI [a, b], c] : Iteratee σ) = iterFinal B (.seqI [a, b, c]) := by
  have hrel : SRel (.seqI [.seqI [a, b], c] : Iteratee σ) (.seqI [a, b, c]) :=
    SRel.seqseq [a, b] [c]
  constructor
  · intro res
    constructor
    · rintro ⟨n, hn⟩
      exact ⟨n, srel_run_right B n e _ _ res hrel hn⟩
    · rintro ⟨n, hn⟩
      exact ⟨n + 1, srel_run_left B n e _ _ res hrel hn⟩
  · exact srel_final B hrel

/-- Claim C9: the empty `Seq`'s transition on any token completes (no next
consumer) with `consumed = false` and no error; embedded under `Then`, it
silently hands the delivered token on to whatever follows. -/
theorem c9_empty_seq_transition {σ : Type} (B : CustomBehavior σ) (t : Token)
    (x : Iteratee σ) :
    iterNext B (.seqI [] : Iteratee σ) t = ⟨none, false, none⟩ ∧
      iterNext B (.thenI (.seqI []) x) t = ⟨some x, false, none⟩ :=
  ⟨rfl, rfl⟩

/-- Claim C10: the driver's run loop need not terminate.  Any consumer whose
transition on the current token returns itself with `consumed = false` and
no error — e.g. `Star` of the empty `Seq` — makes `Run` loop forever on any
input holding at least one token: every amount of fuel is exhausted without
the run returning. -/
theorem c10_run_nontermination {σ : Type} (B : CustomBehavior σ) (it : Iteratee σ)
    (t : Token) (ts : List Token) (cur0 : Token) (se : Option Err)
    (h : iterNext B it t = ⟨some it, false, none⟩) :
    (∀ n, RunFuel B n ⟨ts, t, false, se⟩ it = none) ∧
      (∀ n, RunFuel B n ⟨t :: ts, cur0, true, se⟩ it = none) := by
  have hfix : ∀ n, RunFuel B n ⟨ts, t, false, se⟩ it = none := by
    intro n
    induction n with
    | zero => rfl
    | succ n ih =>
      have hstep : Step B (⟨ts, t, false, se⟩ : ScanEnumerator) it
          = (⟨ts, t, false, se⟩, some it, none) := by
        have h1 : Step B (⟨ts, t, false, se⟩ : ScanEnumerator) it
            = (eAfter ⟨ts, t, false, se⟩ (iterNext B it t).read, (iterNext B it t).next,
              WrapTokenError t (iterNext B it t).err) := step_tok B _ it (Or.inl rfl)
        rw [h1, h]
        rfl
      rw [RunFuel, hstep]
      exact ih
  refine ⟨hfix, fun n => ?_⟩
  cases n with
  | zero => rfl
  | succ n =>
    have hstep : Step B (⟨t :: ts, cur0, true, se⟩ : ScanEnumerator) it
        = (⟨ts, t, false, se⟩, some it, none) := by
      rw [step_tok B _ it (Or.inr (by simp))]
      dsimp only [tok, eAfter]
      rw [h]
      rfl
    rw [RunFuel, hstep]
    exact hfix n

/-- Witness for C10: `Star(Seq())` steps to itself without consuming, and a
run over `["x"]` returns nothing even with fuel to spare. -/
theorem c10_run_nontermination_witness :
    iterNext unitB (.starI (.seqI [])) "x" = ⟨some (.starI (.seqI [])), false, none⟩ ∧
      RunFuel unitB 7 ⟨["x"], "", true, none⟩ (.starI (.seqI [])) = none :=
  ⟨rfl, (c10_run_nontermination unitB (.starI (.seqI [])) "x" [] "" none rfl).2 7⟩

end KhoStream
